import Mathlib

/-!
Shallow embedding of the rule-based atom-typing engine and the Monte Carlo
atom-type sampler of smarty.py (classes AtomTyper and AtomTypeSampler),
together with theorems settling the frozen claims about them.

External collaborators (the OpenEye SMARTS matcher, aromaticity perception,
SMARTS lex replacement, the networkx maximum-weight matching, and the random
number draws) are modelled as explicit opaque parameters: an oracle returning
the embeddings of a pattern into a graph, a function rewriting the graph
annotations, a pattern-expansion function, a matching given by its mate map,
and explicitly passed random values.
-/

namespace Smarty

/-- A molecular graph as the typing engine sees it: an opaque structure
component `struct` (atoms, bonds and aromaticity annotations, read by the
pattern-matching oracle and rewritten by aromaticity perception), the number
of atoms, and the per-atom mutable label slot that `SetStringData` and
`GetStringData` access on the typing tag. -/
structure Mol (α : Type) where
  struct : α
  natoms : Nat
  labels : List String
deriving DecidableEq, Repr

/-- The pattern-matching oracle: `oracle pat s` returns all embeddings of the
SMARTS pattern `pat` into the graph structure `s` (the call
`pat.Match(mol)`); each embedding lists the indices of the atoms it covers
(the `matchpair.target` atoms). -/
abbrev Oracle (α : Type) := String → α → List (List Nat)

/-- Overwrite the label of every atom covered by one embedding with the
typename of the rule: the inner loop
`for matchpair in matchbase.GetAtoms(): matchpair.target.SetStringData(tag, type)`. -/
def setLabels (ls : List String) (emb : List Nat) (ty : String) : List String :=
  emb.foldl (fun acc i => acc.set i ty) ls

/-- Process one rule of the rule list: query the oracle for all embeddings of
its pattern and overwrite the label of every covered atom with its typename
(the loop `for matchbase in pat.Match(mol): ...` in `AtomTyper.assignTypes`). -/
def applyRule (oracle : Oracle α) (m : Mol α) (r : String × String) : Mol α :=
  { m with labels := (oracle r.1 m.struct).foldl (fun ls emb => setLabels ls emb r.2) m.labels }

/-- The molecule at the start of a typing pass: every label slot reset to the
empty string (`atom.SetStringData(self.pattyTag, "")`) and the graph
annotations rewritten by aromaticity perception (`OEAssignAromaticFlags(mol)`),
modelled by the opaque `aromatize`. -/
def initMol (aromatize : α → α) (m : Mol α) : Mol α :=
  { struct := aromatize m.struct, natoms := m.natoms, labels := List.replicate m.natoms "" }

/-- The state of the molecule after the rule loop of `AtomTyper.assignTypes`:
rules applied in list order, later rules overwriting earlier ones. -/
def runRules (oracle : Oracle α) (aromatize : α → α) (rules : List (String × String)) (m : Mol α) : Mol α :=
  rules.foldl (applyRule oracle) (initMol aromatize m)

/-- `AtomTyper.assignTypes`: reset all labels, perceive aromaticity, apply
every rule in list order, then scan the atoms in index order and fail on the
first atom whose label is still empty (`raise AtomTyper.TypingException(mol, atom)`,
which carries the molecule and the offending atom). -/
def assignTypes (oracle : Oracle α) (aromatize : α → α) (rules : List (String × String)) (m : Mol α) : Except (Mol α × Nat) (Mol α) :=
  match (List.range (runRules oracle aromatize rules m).natoms).find?
      (fun i => decide ((runRules oracle aromatize rules m).labels.getD i "" = "")) with
  | some i => .error (runRules oracle aromatize rules m, i)
  | none => .ok (runRules oracle aromatize rules m)

/-- The effective temperature of the Metropolis test in
`AtomTypeSampler.sample_atomtypes`: 1 when the temperature is exactly 0,
otherwise the total atom count times the temperature. -/
noncomputable def effective_temperature (total_atoms temperature : ℝ) : ℝ :=
  if temperature = 0 then 1 else total_atoms * temperature

/-- The Metropolis acceptance condition of `AtomTypeSampler.sample_atomtypes`
with `log_P_accept = delta / effT` and the uniform draw `u` made explicit:
`(log_P_accept > 0.0) or (numpy.random.uniform() < numpy.exp(log_P_accept))`. -/
def mcAccept (delta effT u : ℝ) : Prop :=
  0 < delta / effT ∨ u < Real.exp (delta / effT)

/-- Atom `i` is covered by pattern `pat` on graph structure `s`: the oracle
returns at least one embedding containing `i`. -/
def covers (oracle : Oracle α) (s : α) (pat : String) (i : Nat) : Bool :=
  (oracle pat s).any (fun emb => decide (i ∈ emb))

/-- The last rule in list order whose pattern has at least one embedding
covering atom `i`, following the wording of the last-write-wins law; compared
against the label the engine actually produces. -/
def lastMatchingRule (oracle : Oracle α) (s : α) (rules : List (String × String)) (i : Nat) : Option (String × String) :=
  (rules.filter (fun r => covers oracle s r.1 i)).getLast?

/-- Whitespace for the Python str.split() call with no separator argument. -/
def isSpaceChar (c : Char) : Bool :=
  c = ' ' || c = '\t' || c = '\n' || c = '\r' || c = '\x0b' || c = '\x0c'

/-- string.split(line): split on runs of whitespace, dropping empty tokens. -/
def pySplit (s : String) : List String :=
  ((s.data.splitOnP isSpaceChar).filter (fun w => !w.isEmpty)).map (fun w => String.mk w)

/-- Strip the trailing comment of a typelist line:
index = line.find(chr(37)); if index != -1: line = line[0:index]. -/
def stripComment (s : String) : String :=
  String.mk (s.data.takeWhile (fun c => c ≠ '%'))

/-- One line of the loop body of `AtomTyper.read_typelist`: after comment
stripping, a line contributes an entry exactly when it splits into exactly
two whitespace-separated tokens; every other line contributes nothing. -/
def parseTypelistLine (line : String) : Option (String × String) :=
  match pySplit (stripComment line) with
  | [smarts, typename] => some (smarts, typename)
  | _ => none

/-- `AtomTyper.read_typelist`. The outer `Option` is the filename argument
(`none` filename returns `none`); the inner `Option` is whether the file
exists (`os.path.exists` false raises, a hard failure); otherwise the lines
are parsed with `parseTypelistLine`. -/
def read_typelist (file : Option (Option (List String))) : Except String (Option (List (String × String))) :=
  match file with
  | none => .ok none
  | some none => .error "File not found."
  | some (some lines) => .ok (some (lines.filterMap parseTypelistLine))

/-- The per-atom (current, reference) type pairs of
`best_match_reference_types`: zip over the two molecule lists, then zip over
the atoms of each molecule pair. -/
def typePairs (cur ref : List (List String)) : List (String × String) :=
  (cur.zip ref).flatMap (fun p => p.1.zip p.2)

/-- atoms_in_common: the number of atoms whose current type is `a` and whose
reference type is `b`, the weight of the edge between `a` and `b`. -/
def atomsInCommon (pairs : List (String × String)) (a b : String) : Nat :=
  (pairs.filter (fun p => decide (p.1 = a ∧ p.2 = b))).length

/-- The atom_type_matches table: for every current typename in rule-list
order, its mate in the matching together with the matched edge weight, or no
match when the typename is not matched. -/
def atomTypeMatches (curTypes : List String) (mate : String → Option String) (w : String → String → Nat) :
    List (String × Option (String × Nat)) :=
  curTypes.map (fun a => (a, (mate a).map (fun b => (b, w a b))))

/-- total_atom_type_matches: the sum of the matched edge weights over the
current typenames, skipping unmatched ones. -/
def totalAtomTypeMatches (curTypes : List String) (mate : String → Option String) (w : String → String → Nat) : Nat :=
  curTypes.foldl (fun acc a => match mate a with | some b => acc + w a b | none => acc) 0

/-- The reference data the sampler stores when reference typed molecules are
supplied: the per-molecule per-atom reference types, and the reference
typename list built from their set. -/
structure RefInfo where
  refLabels : List (List String)
  refTypes : List String

/-- A matching on the graph `best_match_reference_types` builds, supplied by
the external networkx max_weight_matching as its mate map. Nodes are type
name strings, so a name occurring both as a current and as a reference type
is one single node; edges join a current name and a reference name; and a
matching never contains a self-loop, since a loop shares its endpoint with
itself. -/
structure IsMatchingOn (curTypes refTypes : List String) (mate : String → Option String) : Prop where
  symm : ∀ a b, mate a = some b → mate b = some a
  edge : ∀ a b, mate a = some b → (a ∈ curTypes ∧ b ∈ refTypes) ∨ (a ∈ refTypes ∧ b ∈ curTypes)
  loopfree : ∀ a, mate a ≠ some a

/-- `AtomTypeSampler.best_match_reference_types` with the external matching
made explicit: returns `none` when no reference molecules were given,
otherwise the matches table and the total matched count computed from the
mate map and the atoms-in-common edge weights. -/
def best_match_reference_types (mate : String → Option String) (ref : Option RefInfo)
    (atomtypes : List (String × String)) (mols : List (Mol α)) :
    Option (List (String × Option (String × Nat)) × Nat) :=
  match ref with
  | none => none
  | some info =>
    some (atomTypeMatches (atomtypes.map Prod.snd) mate
        (atomsInCommon (typePairs (mols.map Mol.labels) info.refLabels)),
      totalAtomTypeMatches (atomtypes.map Prod.snd) mate
        (atomsInCommon (typePairs (mols.map Mol.labels) info.refLabels)))

/-- The accept/reject tail of `AtomTypeSampler.sample_atomtypes` for a
proposal that survived validation: unpack the scorer result — `none` models
the TypeError crash of unpacking the `None` that the scorer returns when no
reference labeling is present — and hand the proposed total to the
acceptance test `accept`, which closes over the current total, the effective
temperature and the random draw. -/
def acceptStep (mate : String → Option String) (ref : Option RefInfo)
    (atomtypes : List (String × String)) (mols : List (Mol α)) (accept : Nat → Bool) : Option Bool :=
  match best_match_reference_types mate ref atomtypes mols with
  | none => none
  | some (_, proposedTotal) => some (accept proposedTotal)

/-- re.match of the raw pattern \[(.+)\] against the atomtype SMARTS: the
characters between the leading bracket and the last closing bracket of the
first line, greedy and nonempty; `none` when the regex does not match, in
which case the source crashes on result.groups. -/
def regexInner (s : String) : Option String :=
  match s.data with
  | '[' :: rest =>
    match (rest.takeWhile (fun c => c ≠ '\n')).reverse.dropWhile (fun c => c ≠ ']') with
    | [] => none
    | _ :: revContent => if revContent.isEmpty then none else some (String.mk revContent.reverse)
  | _ => none

/-- The new subtype SMARTS of a refine move:
proposed_atomtype is the parent pattern conjoined with the decorator. -/
def proposedAtomtype (inner decorator : String) : String :=
  "[" ++ inner ++ "&" ++ decorator ++ "]"

/-- The new typename of a refine move: the parent typename, a space, and the
decorator typename. -/
def proposedTypename (parentName decoratorName : String) : String :=
  parentName ++ " " ++ decoratorName

/-- The table the AtomTyper constructor builds: every SMARTS is expanded
against the replacement bindings (OESmartsLexReplace, modelled by the opaque
`expand`) before being handed to the matcher. -/
def mkSmartsList (expand : String → String) (typelist : List (String × String)) : List (String × String) :=
  typelist.map (fun r => (expand r.1, r.2))

/-- `AtomTypeSampler.type_molecules`: build an AtomTyper from the typelist
and type every molecule in order; the first typing exception aborts the
pass. -/
def type_molecules (oracle : Oracle α) (aromatize : α → α) (expand : String → String)
    (typelist : List (String × String)) : List (Mol α) → Except (Mol α × Nat) (List (Mol α))
  | [] => .ok []
  | m :: ms =>
    match assignTypes oracle aromatize (mkSmartsList expand typelist) m with
    | .error e => .error e
    | .ok m2 =>
      match type_molecules oracle aromatize expand typelist ms with
      | .error e => .error e
      | .ok ms2 => .ok (m2 :: ms2)

/-- The atom-count half of `AtomTypeSampler.compute_type_statistics`: the
number of atoms across the molecules whose label slot holds `name`. The
source increments dict entries keyed by the typelist; at the use sites
settled here every stored label is a typelist typename, so the dict lookup
never fails and equals this count. -/
def atom_typecounts (mols : List (Mol α)) (name : String) : Nat :=
  ((mols.flatMap Mol.labels).filter (fun t => decide (t = name))).length

/-- The outcome of the refine branch of `AtomTypeSampler.sample_atomtypes`,
up to the Metropolis test: one of the three rejections that happen before
the scorer is invoked, or the validated proposal that is handed to the
scorer. -/
inductive RefineOutcome (α : Type) where
  | rejectedDuplicate : RefineOutcome α
  | rejectedTyping : RefineOutcome α
  | rejectedUnused : RefineOutcome α
  | scored : List (String × String) → List (Mol α) → RefineOutcome α
deriving DecidableEq

/-- The validation tail of a refine move once the parent rule components, the
decorator components and the regex capture are at hand: reject on a duplicate
SMARTS before any typing; otherwise insert the new rule immediately after its
parent, re-type all molecules, reject when typing fails or when the new or
the parent typename now covers zero atoms, and otherwise hand the validated
proposal to the scorer. -/
def refineValidate (oracle : Oracle α) (aromatize : α → α) (expand : String → String)
    (atomtypes : List (String × String)) (mols : List (Mol α)) (i : Nat)
    (inner parentName decorator decoratorName : String) : RefineOutcome α :=
  if proposedAtomtype inner decorator ∈ atomtypes.map Prod.fst then
    .rejectedDuplicate
  else
    match type_molecules oracle aromatize expand
        (atomtypes.insertIdx (i + 1)
          (proposedAtomtype inner decorator, proposedTypename parentName decoratorName)) mols with
    | .error _ => .rejectedTyping
    | .ok mols2 =>
      if atom_typecounts mols2 (proposedTypename parentName decoratorName) = 0 ∨
          atom_typecounts mols2 parentName = 0 then
        .rejectedUnused
      else
        .scored (atomtypes.insertIdx (i + 1)
          (proposedAtomtype inner decorator, proposedTypename parentName decoratorName)) mols2

/-- The regex step of a refine move: extract the bracket content of the
parent SMARTS and validate; `none` is the crash on result.groups when the
regex does not match. -/
def refineWith (oracle : Oracle α) (aromatize : α → α) (expand : String → String)
    (atomtypes : List (String × String)) (mols : List (Mol α)) (i : Nat)
    (atomtype parentName decorator decoratorName : String) : Option (RefineOutcome α) :=
  match regexInner atomtype with
  | none => none
  | some inner =>
    some (refineValidate oracle aromatize expand atomtypes mols i inner parentName decorator decoratorName)

/-- The refine branch of `AtomTypeSampler.sample_atomtypes` for chosen rule
index `i` and decorator index `j`, up to the Metropolis test. The `none`
result models the out-of-range-index and failed-regex crashes that the
random choice of in-range indices precludes. -/
def refineMove (oracle : Oracle α) (aromatize : α → α) (expand : String → String)
    (atomtypes decorators : List (String × String)) (mols : List (Mol α))
    (i j : Nat) : Option (RefineOutcome α) :=
  match atomtypes[i]?, decorators[j]? with
  | some (atomtype, parentName), some (decorator, decoratorName) =>
    refineWith oracle aromatize expand atomtypes mols i atomtype parentName decorator decoratorName
  | _, _ => none

/-- The mutable sampler attributes a typing pass can reach: the rule list,
the decorator list, and the annotated, labelled molecules. -/
structure SamplerEnv (α : Type) where
  atomtypes : List (String × String)
  decorators : List (String × String)
  molecules : List (Mol α)
deriving DecidableEq

/-- A full typing pass over the sampler state, recording every mutation the
pass makes: only the molecules change, in their label slots and their
aromaticity annotations. -/
def typeMoleculesEnv (oracle : Oracle α) (aromatize : α → α) (expand : String → String)
    (env : SamplerEnv α) : Except (Mol α × Nat) (SamplerEnv α) :=
  match type_molecules oracle aromatize expand env.atomtypes env.molecules with
  | .error e => .error e
  | .ok mols2 => .ok { env with molecules := mols2 }

end Smarty

namespace Smarty

theorem getD_set (ls : List String) (j : Nat) (v : String) (i : Nat) (hi : i < ls.length) :
    (ls.set j v).getD i "" = if i = j then v else ls.getD i "" := by
  simp only [List.getD_eq_getElem?_getD, List.getElem?_set]
  by_cases h : j = i
  · subst h
    simp [hi]
  · have h2 : ¬ i = j := fun hh => h hh.symm
    simp [h, h2]

theorem length_setLabels (ls : List String) (emb : List Nat) (ty : String) :
    (setLabels ls emb ty).length = ls.length := by
  induction emb generalizing ls with
  | nil => rfl
  | cons j emb ih => simpa [setLabels] using (ih (ls.set j ty)).trans (List.length_set ls j ty)

theorem getD_setLabels (emb : List Nat) (ls : List String) (ty : String) (i : Nat) (hi : i < ls.length) :
    (setLabels ls emb ty).getD i "" = if i ∈ emb then ty else ls.getD i "" := by
  induction emb generalizing ls with
  | nil => simp [setLabels]
  | cons j emb ih =>
    have hlen : i < (ls.set j ty).length := by simpa using hi
    have hstep : setLabels ls (j :: emb) ty = setLabels (ls.set j ty) emb ty := rfl
    rw [hstep, ih (ls.set j ty) hlen, getD_set ls j ty i hi]
    by_cases hmem : i ∈ emb
    · simp [hmem]
    · by_cases hij : i = j <;> simp [hmem, hij]

theorem getD_foldl_setLabels (embs : List (List Nat)) (ls : List String) (ty : String) (i : Nat) (hi : i < ls.length) :
    (embs.foldl (fun acc emb => setLabels acc emb ty) ls).getD i "" =
      if embs.any (fun emb => decide (i ∈ emb)) then ty else ls.getD i "" := by
  induction embs generalizing ls with
  | nil => simp
  | cons emb embs ih =>
    have hlen : i < (setLabels ls emb ty).length := by rw [length_setLabels]; exact hi
    have hstep : (emb :: embs).foldl (fun acc e => setLabels acc e ty) ls =
        embs.foldl (fun acc e => setLabels acc e ty) (setLabels ls emb ty) := rfl
    rw [hstep, ih (setLabels ls emb ty) hlen, getD_setLabels emb ls ty i hi]
    by_cases hrest : embs.any (fun e => decide (i ∈ e)) <;>
      by_cases hmem : i ∈ emb <;> simp [hrest, hmem]

theorem length_foldl_setLabels (embs : List (List Nat)) (ls : List String) (ty : String) :
    (embs.foldl (fun acc emb => setLabels acc emb ty) ls).length = ls.length := by
  induction embs generalizing ls with
  | nil => rfl
  | cons emb embs ih =>
    simpa using (ih (setLabels ls emb ty)).trans (length_setLabels ls emb ty)

theorem struct_applyRule (oracle : Oracle α) (m : Mol α) (r : String × String) :
    (applyRule oracle m r).struct = m.struct := rfl

theorem natoms_applyRule (oracle : Oracle α) (m : Mol α) (r : String × String) :
    (applyRule oracle m r).natoms = m.natoms := rfl

theorem length_labels_applyRule (oracle : Oracle α) (m : Mol α) (r : String × String) :
    (applyRule oracle m r).labels.length = m.labels.length :=
  length_foldl_setLabels _ _ _

theorem getD_applyRule (oracle : Oracle α) (m : Mol α) (r : String × String) (i : Nat) (hi : i < m.labels.length) :
    (applyRule oracle m r).labels.getD i "" =
      if covers oracle m.struct r.1 i then r.2 else m.labels.getD i "" := by
  simpa [applyRule, covers] using getD_foldl_setLabels (oracle r.1 m.struct) m.labels r.2 i hi

theorem struct_foldl_applyRule (oracle : Oracle α) (rules : List (String × String)) (m : Mol α) :
    (rules.foldl (applyRule oracle) m).struct = m.struct := by
  induction rules generalizing m with
  | nil => rfl
  | cons r rules ih => simpa using ih (applyRule oracle m r)

theorem natoms_foldl_applyRule (oracle : Oracle α) (rules : List (String × String)) (m : Mol α) :
    (rules.foldl (applyRule oracle) m).natoms = m.natoms := by
  induction rules generalizing m with
  | nil => rfl
  | cons r rules ih => simpa using ih (applyRule oracle m r)

theorem length_labels_foldl_applyRule (oracle : Oracle α) (rules : List (String × String)) (m : Mol α) :
    (rules.foldl (applyRule oracle) m).labels.length = m.labels.length := by
  induction rules generalizing m with
  | nil => rfl
  | cons r rules ih =>
    simpa using (ih (applyRule oracle m r)).trans (length_labels_applyRule oracle m r)

theorem getD_foldl_applyRule (oracle : Oracle α) (rules : List (String × String)) (m : Mol α) (i : Nat)
    (hi : i < m.labels.length) :
    (rules.foldl (applyRule oracle) m).labels.getD i "" =
      match (rules.filter (fun r => covers oracle m.struct r.1 i)).getLast? with
      | some r => r.2
      | none => m.labels.getD i "" := by
  induction rules using List.reverseRecOn with
  | nil => simp
  | append_singleton rules r ih =>
    have hlen : i < (rules.foldl (applyRule oracle) m).labels.length := by
      rw [length_labels_foldl_applyRule]; exact hi
    have hstruct : (rules.foldl (applyRule oracle) m).struct = m.struct :=
      struct_foldl_applyRule oracle rules m
    rw [List.foldl_append, List.foldl_cons, List.foldl_nil,
      getD_applyRule oracle _ r i hlen, hstruct, ih, List.filter_append]
    by_cases hcov : covers oracle m.struct r.1 i
    · simp [hcov, List.getLast?_concat]
    · simp [hcov]

/-- The final label of atom `i` after the rule loop equals the typename of the
last covering rule, or the empty string when no rule covers `i`. -/
theorem getD_runRules (oracle : Oracle α) (aromatize : α → α) (rules : List (String × String)) (m : Mol α)
    (i : Nat) (hi : i < m.natoms) :
    (runRules oracle aromatize rules m).labels.getD i "" =
      match lastMatchingRule oracle (aromatize m.struct) rules i with
      | some r => r.2
      | none => "" := by
  have hlen : i < (initMol aromatize m).labels.length := by
    simp [initMol, hi]
  rw [runRules, getD_foldl_applyRule oracle rules (initMol aromatize m) i hlen, lastMatchingRule]
  rcases hlast : ((rules.filter (fun r => covers oracle (aromatize m.struct) r.1 i)).getLast?) with _ | r <;>
    simp [initMol, hlast, List.getD_eq_getElem?_getD, List.getElem?_replicate, hi]

theorem natoms_runRules (oracle : Oracle α) (aromatize : α → α) (rules : List (String × String)) (m : Mol α) :
    (runRules oracle aromatize rules m).natoms = m.natoms :=
  (natoms_foldl_applyRule oracle rules (initMol aromatize m)).trans rfl

theorem struct_runRules (oracle : Oracle α) (aromatize : α → α) (rules : List (String × String)) (m : Mol α) :
    (runRules oracle aromatize rules m).struct = aromatize m.struct :=
  (struct_foldl_applyRule oracle rules (initMol aromatize m)).trans rfl

theorem length_labels_runRules (oracle : Oracle α) (aromatize : α → α) (rules : List (String × String)) (m : Mol α) :
    (runRules oracle aromatize rules m).labels.length = m.natoms := by
  rw [runRules, length_labels_foldl_applyRule]
  simp [initMol]

theorem assignTypes_ok_elim (oracle : Oracle α) (aromatize : α → α) (rules : List (String × String))
    (m m' : Mol α) (hok : assignTypes oracle aromatize rules m = .ok m') :
    m' = runRules oracle aromatize rules m ∧
      ∀ i ∈ List.range (runRules oracle aromatize rules m).natoms,
        ¬ (runRules oracle aromatize rules m).labels.getD i "" = "" := by
  unfold assignTypes at hok
  split at hok
  · cases hok
  · rename_i hfind
    refine ⟨(Except.ok.injEq _ _).mp hok |>.symm, ?_⟩
    intro i hi
    have := List.find?_eq_none.mp hfind i hi
    simpa using this

theorem assignTypes_error_elim (oracle : Oracle α) (aromatize : α → α) (rules : List (String × String))
    (m : Mol α) (me : Mol α) (k : Nat) (herr : assignTypes oracle aromatize rules m = .error (me, k)) :
    me = runRules oracle aromatize rules m ∧ k < m.natoms ∧ me.labels.getD k "" = "" := by
  unfold assignTypes at herr
  split at herr
  · rename_i k0 hfind
    have hpair : (runRules oracle aromatize rules m, k0) = (me, k) :=
      (Except.error.injEq _ _).mp herr
    have hme : me = runRules oracle aromatize rules m := (Prod.mk.injEq _ _ _ _ |>.mp hpair).1.symm
    have hk : k0 = k := (Prod.mk.injEq _ _ _ _ |>.mp hpair).2
    subst hk
    have hprop := List.find?_some hfind
    have hmem := List.mem_of_find?_eq_some hfind
    rw [List.mem_range, natoms_runRules] at hmem
    refine ⟨hme, hmem, ?_⟩
    rw [hme]
    simpa using hprop
  · cases herr

theorem foldl_applyRule_congr (o1 o2 : Oracle α) (rules : List (String × String)) (m : Mol α)
    (h : ∀ r ∈ rules, o1 r.1 m.struct = o2 r.1 m.struct) :
    rules.foldl (applyRule o1) m = rules.foldl (applyRule o2) m := by
  induction rules generalizing m with
  | nil => rfl
  | cons r rules ih =>
    have h1 : applyRule o1 m r = applyRule o2 m r := by
      unfold applyRule
      rw [h r (List.mem_cons_self r rules)]
    rw [List.foldl_cons, List.foldl_cons, h1]
    exact ih (applyRule o2 m r) (fun r2 hr2 => h r2 (List.mem_cons_of_mem r hr2))

/-- Claim C1: whenever `AtomTyper.assignTypes` succeeds, the final label of
each atom equals the typename of the last rule in list order whose pattern has
at least one embedding covering that atom — later rules unconditionally
overwrite the labels written by earlier rules. -/
theorem c1_last_write_wins (oracle : Oracle α) (aromatize : α → α) (rules : List (String × String))
    (m m' : Mol α) (hok : assignTypes oracle aromatize rules m = .ok m') (i : Nat) (hi : i < m.natoms) :
    ∃ r, lastMatchingRule oracle (aromatize m.struct) rules i = some r ∧
      m'.labels.getD i "" = r.2 := by
  obtain ⟨hm', hall⟩ := assignTypes_ok_elim oracle aromatize rules m m' hok
  have hne : ¬ (runRules oracle aromatize rules m).labels.getD i "" = "" := by
    refine hall i ?_
    rw [List.mem_range, natoms_runRules]
    exact hi
  have heq := getD_runRules oracle aromatize rules m i hi
  rcases hlast : lastMatchingRule oracle (aromatize m.struct) rules i with _ | r
  · rw [hlast] at heq
    exact absurd heq hne
  · rw [hlast] at heq
    exact ⟨r, rfl, by rw [hm']; exact heq⟩

/-- Witness for C1 on a two-atom molecule and two rules where the second rule
overwrites the label of atom 1. -/
theorem c1_last_write_wins_witness :
    assignTypes (fun p _ => if p = "A" then [[0, 1]] else [[1]]) id [("A", "a"), ("B", "b")]
        (⟨(), 2, []⟩ : Mol Unit) = .ok ⟨(), 2, ["a", "b"]⟩ ∧
    1 < 2 ∧
    ∃ r, lastMatchingRule (fun p _ => if p = "A" then [[0, 1]] else [[1]]) () [("A", "a"), ("B", "b")] 1 = some r ∧
      (⟨(), 2, ["a", "b"]⟩ : Mol Unit).labels.getD 1 "" = r.2 := by
  refine ⟨rfl, by decide, ?_⟩
  exact c1_last_write_wins (fun p _ => if p = "A" then [[0, 1]] else [[1]]) id
    [("A", "a"), ("B", "b")] ⟨(), 2, []⟩ ⟨(), 2, ["a", "b"]⟩ rfl 1 (by decide)

/-- Claim C3: the typing pass fails with a coverage error identifying the
offending molecule and the first unlabeled atom iff some atom label is still
empty after processing every rule; on success every atom label is non-empty,
so no partial labeling is ever returned silently. -/
theorem c3_coverage_error (oracle : Oracle α) (aromatize : α → α) (rules : List (String × String)) (m : Mol α) :
    ((∃ i, i < m.natoms ∧ (runRules oracle aromatize rules m).labels.getD i "" = "") ↔
      ∃ e, assignTypes oracle aromatize rules m = .error e) ∧
    (∀ me k, assignTypes oracle aromatize rules m = .error (me, k) →
      me = runRules oracle aromatize rules m ∧ k < m.natoms ∧ me.labels.getD k "" = "") ∧
    (∀ m', assignTypes oracle aromatize rules m = .ok m' →
      ∀ i, i < m.natoms → m'.labels.getD i "" ≠ "") := by
  refine ⟨⟨?_, ?_⟩, ?_, ?_⟩
  · rintro ⟨i, hi, hempty⟩
    unfold assignTypes
    split
    · exact ⟨_, rfl⟩
    · rename_i hfind
      have := List.find?_eq_none.mp hfind i (by rw [List.mem_range, natoms_runRules]; exact hi)
      simp only [decide_eq_true_eq] at this
      exact absurd hempty this
  · rintro ⟨e, herr⟩
    obtain ⟨me, k⟩ := e
    obtain ⟨hme, hk, hempty⟩ := assignTypes_error_elim oracle aromatize rules m me k herr
    exact ⟨k, hk, by rw [← hme]; exact hempty⟩
  · intro me k herr
    exact assignTypes_error_elim oracle aromatize rules m me k herr
  · intro m' hok i hi
    obtain ⟨hm', hall⟩ := assignTypes_ok_elim oracle aromatize rules m m' hok
    rw [hm']
    exact hall i (by rw [List.mem_range, natoms_runRules]; exact hi)

/-- Witness for C3: a rule set covering only atom 0 of a two-atom molecule
produces a coverage error naming atom 1, and the error-iff-empty equivalence
holds at this input. -/
theorem c3_coverage_error_witness :
    (((∃ i, i < 2 ∧ (runRules (fun _ _ => [[0]]) id [("A", "a")] (⟨(), 2, []⟩ : Mol Unit)).labels.getD i "" = "") ↔
      ∃ e, assignTypes (fun _ _ => [[0]]) id [("A", "a")] (⟨(), 2, []⟩ : Mol Unit) = .error e) ∧
    (∀ me k, assignTypes (fun _ _ => [[0]]) id [("A", "a")] (⟨(), 2, []⟩ : Mol Unit) = .error (me, k) →
      me = runRules (fun _ _ => [[0]]) id [("A", "a")] (⟨(), 2, []⟩ : Mol Unit) ∧ k < 2 ∧ me.labels.getD k "" = "") ∧
    (∀ m', assignTypes (fun _ _ => [[0]]) id [("A", "a")] (⟨(), 2, []⟩ : Mol Unit) = .ok m' →
      ∀ i, i < 2 → m'.labels.getD i "" ≠ "")) ∧
    assignTypes (fun _ _ => [[0]]) id [("A", "a")] (⟨(), 2, []⟩ : Mol Unit) =
      .error (⟨(), 2, ["a", ""]⟩, 1) :=
  ⟨c3_coverage_error (fun _ _ => [[0]]) id [("A", "a")] ⟨(), 2, []⟩, rfl⟩

/-- Claim C9: the typing pass is deterministic — it depends only on the rule
list order and on the embeddings the oracle returns for the rule patterns on
this graph, and not on the labels the molecule carried before the pass; two
runs with oracles answering identically on the rule patterns produce
identical results. -/
theorem c9_deterministic (o1 o2 : Oracle α) (aromatize : α → α) (rules : List (String × String))
    (m : Mol α) (l1 l2 : List String)
    (h : ∀ r ∈ rules, o1 r.1 (aromatize m.struct) = o2 r.1 (aromatize m.struct)) :
    assignTypes o1 aromatize rules { m with labels := l1 } =
      assignTypes o2 aromatize rules { m with labels := l2 } := by
  have hinit : initMol aromatize { m with labels := l1 } = initMol aromatize { m with labels := l2 } := rfl
  have hrun : runRules o1 aromatize rules { m with labels := l1 } =
      runRules o2 aromatize rules { m with labels := l2 } := by
    unfold runRules
    rw [hinit]
    exact foldl_applyRule_congr o1 o2 rules (initMol aromatize { m with labels := l2 }) h
  unfold assignTypes
  rw [hrun]

/-- Claim C2: with a positive atom count and nonnegative temperature the
effective temperature is positive, the sampler accepts exactly when
`delta > 0` or the uniform draw satisfies `u < exp(delta / effT)`, acceptance
is certain whenever `delta >= 0`, and for `delta < 0` the accepting subset of
`[0,1)` is exactly `[0, exp(delta / effT))`, whose length is the claimed
acceptance probability. -/
theorem c2_metropolis (total_atoms temperature delta u T : ℝ)
    (hA : 0 < total_atoms) (ht : 0 ≤ temperature)
    (hT : T = effective_temperature total_atoms temperature) :
    0 < T ∧
    (mcAccept delta T u ↔ (0 < delta ∨ u < Real.exp (delta / T))) ∧
    (0 ≤ delta → ∀ v ∈ Set.Ico (0 : ℝ) 1, mcAccept delta T v) ∧
    (delta < 0 → {v ∈ Set.Ico (0 : ℝ) 1 | mcAccept delta T v} = Set.Ico 0 (Real.exp (delta / T)) ∧
      MeasureTheory.volume {v ∈ Set.Ico (0 : ℝ) 1 | mcAccept delta T v} =
        ENNReal.ofReal (Real.exp (delta / T))) := by
  have hTpos : 0 < T := by
    rw [hT, effective_temperature]
    by_cases h0 : temperature = 0
    · simp [h0]
    · have htemp : 0 < temperature := lt_of_le_of_ne ht (fun h => h0 h.symm)
      simp [h0]
      exact mul_pos hA htemp
  have hdiv : 0 < delta / T ↔ 0 < delta := by
    constructor
    · intro h
      by_contra hneg
      push_neg at hneg
      have : delta / T ≤ 0 := div_nonpos_of_nonpos_of_nonneg hneg hTpos.le
      linarith
    · intro h
      exact div_pos h hTpos
  refine ⟨hTpos, ?_, ?_, ?_⟩
  · rw [mcAccept, hdiv]
  · intro hd v hv
    rcases lt_or_eq_of_le hd with hd | hd
    · exact Or.inl (hdiv.mpr hd)
    · refine Or.inr ?_
      rw [← hd]
      simpa using hv.2
  · intro hd
    have hexp1 : Real.exp (delta / T) < 1 := by
      have : delta / T < 0 := div_neg_of_neg_of_pos hd hTpos
      calc Real.exp (delta / T) < Real.exp 0 := Real.exp_lt_exp.mpr this
        _ = 1 := Real.exp_zero
    have hset : {v ∈ Set.Ico (0 : ℝ) 1 | mcAccept delta T v} = Set.Ico 0 (Real.exp (delta / T)) := by
      ext v
      simp only [Set.mem_setOf_eq, Set.mem_Ico, mcAccept]
      constructor
      · rintro ⟨⟨h0, _⟩, hacc | hacc⟩
        · exact absurd (hdiv.mp hacc) (not_lt.mpr hd.le)
        · exact ⟨h0, hacc⟩
      · rintro ⟨h0, hlt⟩
        exact ⟨⟨h0, lt_trans hlt hexp1⟩, Or.inr hlt⟩
    refine ⟨hset, ?_⟩
    rw [hset, Real.volume_Ico, sub_zero]

/-- Witness for C2 at atom count 1, temperature 0, delta 1, draw 0. -/
theorem c2_metropolis_witness :
    (0 : ℝ) < 1 ∧ (0 : ℝ) ≤ 0 ∧ (1 : ℝ) = effective_temperature 1 0 ∧
    (0 < (1 : ℝ) ∧
    (mcAccept 1 1 0 ↔ (0 < (1 : ℝ) ∨ (0 : ℝ) < Real.exp (1 / 1))) ∧
    (0 ≤ (1 : ℝ) → ∀ v ∈ Set.Ico (0 : ℝ) 1, mcAccept 1 1 v) ∧
    ((1 : ℝ) < 0 → {v ∈ Set.Ico (0 : ℝ) 1 | mcAccept 1 1 v} = Set.Ico 0 (Real.exp (1 / 1)) ∧
      MeasureTheory.volume {v ∈ Set.Ico (0 : ℝ) 1 | mcAccept 1 1 v} =
        ENNReal.ofReal (Real.exp (1 / 1)))) :=
  ⟨one_pos, le_refl 0, by simp [effective_temperature],
    c2_metropolis 1 0 1 0 1 one_pos (le_refl 0) (by simp [effective_temperature])⟩

/-- Witness for C9: two oracles agreeing on the rule pattern, applied to the
same molecule carrying different stale labels, give the same result. -/
theorem c9_deterministic_witness :
    assignTypes (fun _ _ => [[0]]) id [("A", "a")] { (⟨(), 1, []⟩ : Mol Unit) with labels := [] } =
      assignTypes (fun p _ => if p = "A" then [[0]] else []) id [("A", "a")]
        { (⟨(), 1, []⟩ : Mol Unit) with labels := ["stale"] } :=
  c9_deterministic (fun _ _ => [[0]]) (fun p _ => if p = "A" then [[0]] else []) id
    [("A", "a")] ⟨(), 1, []⟩ [] ["stale"] (by decide)

theorem parseTypelistLine_eq_none (line : String)
    (h : (pySplit (stripComment line)).length ≠ 2) : parseTypelistLine line = none := by
  unfold parseTypelistLine
  rcases hs : pySplit (stripComment line) with _ | ⟨a, _ | ⟨b, _ | ⟨c, rest⟩⟩⟩ <;>
    first
      | rfl
      | (exfalso; exact h (by simp [hs]))

/-- Counterexample to C8 as stated: a line with three tokens does not cause a
malformed-rule-file error; read_typelist succeeds and silently skips it. -/
theorem c8_counterexample :
    read_typelist (some (some ["[#6] c extra"])) = Except.ok (some []) := rfl

/-- Claim C8 (amended): a missing file is a hard failure at load time, but a
line that, after stripping the comment, is not exactly two
whitespace-separated tokens is silently skipped rather than raising an
error, while a two-token line contributes exactly its pair. -/
theorem c8_malformed_lines (line : String) (lines : List String) :
    (∃ msg, read_typelist (some none) = Except.error msg) ∧
    ((pySplit (stripComment line)).length ≠ 2 →
      read_typelist (some (some (line :: lines))) = read_typelist (some (some lines))) ∧
    (∀ smarts typename, pySplit (stripComment line) = [smarts, typename] →
      read_typelist (some (some (line :: lines))) =
        Except.ok (some ((smarts, typename) :: lines.filterMap parseTypelistLine))) := by
  refine ⟨⟨"File not found.", rfl⟩, ?_, ?_⟩
  · intro h
    have hnone : parseTypelistLine line = none := parseTypelistLine_eq_none line h
    simp [read_typelist, List.filterMap_cons, hnone]
  · intro smarts typename h
    have hsome : parseTypelistLine line = some (smarts, typename) := by
      unfold parseTypelistLine
      rw [h]
    simp [read_typelist, List.filterMap_cons, hsome]

/-- Witness for C8: the three-token line is skipped, and the missing file is
a fatal error. -/
theorem c8_malformed_lines_witness :
    (pySplit (stripComment "[#6] c extra")).length ≠ 2 ∧
    read_typelist (some (some ["[#6] c extra"])) = read_typelist (some (some ([] : List String))) ∧
    (∃ msg, read_typelist (some none) = Except.error msg) :=
  ⟨by decide, (c8_malformed_lines "[#6] c extra" []).2.1 (by decide),
    (c8_malformed_lines "[#6] c extra" []).1⟩

/-- Claim C10: without reference typed molecules, best_match_reference_types
returns None instead of a pair, so the accept/reject step of the sampler
fails at the unpacking of the scorer result; the step completes exactly when
a reference labeling is present. -/
theorem c10_requires_reference (mate : String → Option String) (ref : Option RefInfo)
    (atomtypes : List (String × String)) (mols : List (Mol α)) (accept : Nat → Bool) :
    best_match_reference_types mate none atomtypes mols = none ∧
    (acceptStep mate ref atomtypes mols accept = none ↔ ref = none) := by
  refine ⟨rfl, ?_⟩
  cases ref <;> simp [acceptStep, best_match_reference_types]

/-- Claim C7 evaluated at the failing input: when the current and the
reference labeling carry the same type name, that name is a single node of
the graph the scorer builds, the only positive edge is a self-loop that no
matching may contain, and total_atom_type_matches is 0 although the corpus
has 1 atom — not the corpus atom count that the claim requires. -/
theorem c7_self_score_collapse (mate : String → Option String)
    (hm : IsMatchingOn ["c"] ["c"] mate) :
    best_match_reference_types (α := Unit) mate (some ⟨[["c"]], ["c"]⟩) [("[*]", "c")]
        [⟨(), 1, ["c"]⟩] = some ([("c", none)], 0) ∧
    (typePairs [["c"]] [["c"]]).length = 1 := by
  have hnone : mate "c" = none := by
    rcases h : mate "c" with _ | b
    · rfl
    · exfalso
      have hb : b = "c" := by
        rcases hm.edge "c" b h with ⟨_, hb⟩ | ⟨_, hb⟩ <;> simpa using hb
      rw [hb] at h
      exact hm.loopfree "c" h
  refine ⟨?_, rfl⟩
  simp [best_match_reference_types, atomTypeMatches, totalAtomTypeMatches, hnone]

/-- Witness for C7: the empty matching is a matching on the collapsed graph. -/
theorem c7_self_score_collapse_witness :
    IsMatchingOn ["c"] ["c"] (fun _ => none) ∧
    (best_match_reference_types (α := Unit) (fun _ => none) (some ⟨[["c"]], ["c"]⟩) [("[*]", "c")]
        [⟨(), 1, ["c"]⟩] = some ([("c", none)], 0) ∧
    (typePairs [["c"]] [["c"]]).length = 1) :=
  ⟨⟨(fun _ _ h => nomatch h), (fun _ _ h => nomatch h), (fun _ h => nomatch h)⟩,
    c7_self_score_collapse (fun _ => none)
      ⟨(fun _ _ h => nomatch h), (fun _ _ h => nomatch h), (fun _ h => nomatch h)⟩⟩

theorem type_molecules_ok_elim (oracle : Oracle α) (aromatize : α → α) (expand : String → String)
    (typelist : List (String × String)) (ms ms2 : List (Mol α))
    (hok : type_molecules oracle aromatize expand typelist ms = .ok ms2) :
    ms2.length = ms.length ∧
    ∀ (k : Nat) (m0 : Mol α), ms[k]? = some m0 → ∃ m1, ms2[k]? = some m1 ∧
      assignTypes oracle aromatize (mkSmartsList expand typelist) m0 = .ok m1 := by
  induction ms generalizing ms2 with
  | nil =>
    simp only [type_molecules] at hok
    cases hok
    simp
  | cons m ms ih =>
    rcases hass : assignTypes oracle aromatize (mkSmartsList expand typelist) m with e | m2
    · simp only [type_molecules, hass] at hok
      cases hok
    · rcases htail : type_molecules oracle aromatize expand typelist ms with e | tail
      · simp only [type_molecules, hass, htail] at hok
        cases hok
      · simp only [type_molecules, hass, htail, Except.ok.injEq] at hok
        subst hok
        obtain ⟨hlen, hpt⟩ := ih tail htail
        refine ⟨by simp [hlen], ?_⟩
        intro k m0 hk
        cases k with
        | zero =>
          simp only [List.getElem?_cons_zero, Option.some.injEq] at hk
          subst hk
          exact ⟨m2, by simp, hass⟩
        | succ k =>
          simp only [List.getElem?_cons_succ] at hk ⊢
          exact hpt k m0 hk

theorem assignTypes_ok_frame (oracle : Oracle α) (aromatize : α → α)
    (rules : List (String × String)) (m m2 : Mol α)
    (hok : assignTypes oracle aromatize rules m = .ok m2) :
    m2.natoms = m.natoms ∧ m2.struct = aromatize m.struct ∧ m2.labels.length = m.natoms := by
  obtain ⟨hm2, -⟩ := assignTypes_ok_elim oracle aromatize rules m m2 hok
  rw [hm2]
  exact ⟨natoms_runRules oracle aromatize rules m, struct_runRules oracle aromatize rules m,
    length_labels_runRules oracle aromatize rules m⟩

/-- Counterexample to C6 as stated: a typing pass rewrites the aromaticity
annotations of the molecular graphs (OEAssignAromaticFlags), so the graphs do
not come out unchanged whenever aromaticity perception changes any flag. -/
theorem c6_counterexample :
    typeMoleculesEnv (fun _ _ => [[0]]) Nat.succ id
        (⟨[("[*]", "c")], [], [⟨0, 1, []⟩]⟩ : SamplerEnv Nat) =
      .ok ⟨[("[*]", "c")], [], [⟨1, 1, ["c"]⟩]⟩ ∧
    ([(⟨1, 1, ["c"]⟩ : Mol Nat)]).map Mol.struct ≠ ([(⟨0, 1, []⟩ : Mol Nat)]).map Mol.struct :=
  ⟨rfl, by decide⟩

/-- Claim C6 (amended): a successful typing pass leaves the rule list and the
decorator list unchanged, preserves the number of molecules and the atom
count of each, and besides the label slots it touches exactly the graph
annotations, rewriting them with aromaticity perception. -/
theorem c6_frame (oracle : Oracle α) (aromatize : α → α) (expand : String → String)
    (env env2 : SamplerEnv α) (hok : typeMoleculesEnv oracle aromatize expand env = .ok env2) :
    env2.atomtypes = env.atomtypes ∧ env2.decorators = env.decorators ∧
    env2.molecules.length = env.molecules.length ∧
    ∀ (k : Nat) (m0 : Mol α), env.molecules[k]? = some m0 → ∃ m1, env2.molecules[k]? = some m1 ∧
      m1.natoms = m0.natoms ∧ m1.struct = aromatize m0.struct := by
  unfold typeMoleculesEnv at hok
  split at hok
  · cases hok
  · rename_i mols2 htm
    cases hok
    obtain ⟨hlen, hpt⟩ := type_molecules_ok_elim oracle aromatize expand env.atomtypes
      env.molecules mols2 htm
    refine ⟨rfl, rfl, hlen, ?_⟩
    intro k m0 hk
    obtain ⟨m1, hm1, hass⟩ := hpt k m0 hk
    obtain ⟨hn, hs, -⟩ := assignTypes_ok_frame oracle aromatize _ m0 m1 hass
    exact ⟨m1, hm1, hn, hs⟩

/-- Witness for C6 (amended) on a one-molecule environment with a nontrivial
aromaticity perception. -/
theorem c6_frame_witness :
    typeMoleculesEnv (fun _ _ => [[0]]) Nat.succ id
        (⟨[("[*]", "c")], [("D", "d")], [⟨0, 1, []⟩]⟩ : SamplerEnv Nat) =
      .ok ⟨[("[*]", "c")], [("D", "d")], [⟨1, 1, ["c"]⟩]⟩ ∧
    ([("[*]", "c")] : List (String × String)) = [("[*]", "c")] ∧
    ([("D", "d")] : List (String × String)) = [("D", "d")] ∧
    (∃ m1, ([(⟨1, 1, ["c"]⟩ : Mol Nat)])[0]? = some m1 ∧
      m1.natoms = 1 ∧ m1.struct = Nat.succ 0) := by
  have h := c6_frame (fun _ _ => [[0]]) Nat.succ id
    ⟨[("[*]", "c")], [("D", "d")], [⟨0, 1, []⟩]⟩ ⟨[("[*]", "c")], [("D", "d")], [⟨1, 1, ["c"]⟩]⟩ rfl
  exact ⟨rfl, h.1, h.2.1, h.2.2.2 0 ⟨0, 1, []⟩ rfl⟩

theorem refineMove_eq_validate (oracle : Oracle α) (aromatize : α → α) (expand : String → String)
    (atomtypes decorators : List (String × String)) (mols : List (Mol α)) (i j : Nat)
    (atomtype parentName decorator decoratorName inner : String)
    (hi : atomtypes[i]? = some (atomtype, parentName))
    (hj : decorators[j]? = some (decorator, decoratorName))
    (hre : regexInner atomtype = some inner) :
    refineMove oracle aromatize expand atomtypes decorators mols i j =
      some (refineValidate oracle aromatize expand atomtypes mols i
        inner parentName decorator decoratorName) := by
  unfold refineMove
  rw [hi, hj]
  show refineWith oracle aromatize expand atomtypes mols i atomtype parentName decorator decoratorName = _
  unfold refineWith
  rw [hre]

/-- Counterexample to C4 as stated: a rule whose label equals the proposed
new label already exists, yet the refine move is not rejected — it re-types
the molecules and reaches the scorer, because the source guard compares the
proposed SMARTS against the existing SMARTS patterns, not the labels. -/
theorem c4_counterexample :
    "c D" = proposedTypename "c" "D" ∧
    "c D" ∈ ([("[x]", "c"), ("[y]", "c D")].map Prod.snd) ∧
    refineMove (fun p _ => if p = "[x]" then [[0, 1]] else if p = "[x&D]" then [[1]] else []) id id
        [("[x]", "c"), ("[y]", "c D")] [("D", "D")] [(⟨(), 2, []⟩ : Mol Unit)] 0 0 =
      some (.scored [("[x]", "c"), ("[x&D]", "c D"), ("[y]", "c D")]
        [⟨(), 2, ["c", "c D"]⟩]) :=
  ⟨rfl, by decide, rfl⟩

/-- Claim C4 (amended): the duplicate guard of a refine move fires, rejecting
before any typing and any scoring, exactly when a rule whose SMARTS pattern
equals the proposed new pattern already exists among the current rules. -/
theorem c4_duplicate_guard (oracle : Oracle α) (aromatize : α → α) (expand : String → String)
    (atomtypes decorators : List (String × String)) (mols : List (Mol α)) (i j : Nat)
    (atomtype parentName decorator decoratorName inner : String)
    (hi : atomtypes[i]? = some (atomtype, parentName))
    (hj : decorators[j]? = some (decorator, decoratorName))
    (hre : regexInner atomtype = some inner) :
    refineMove oracle aromatize expand atomtypes decorators mols i j = some .rejectedDuplicate ↔
      proposedAtomtype inner decorator ∈ atomtypes.map Prod.fst := by
  rw [refineMove_eq_validate oracle aromatize expand atomtypes decorators mols i j
    atomtype parentName decorator decoratorName inner hi hj hre]
  by_cases hdup : proposedAtomtype inner decorator ∈ atomtypes.map Prod.fst
  · simp [refineValidate, hdup]
  · simp only [refineValidate, if_neg hdup, Option.some.injEq]
    constructor
    · intro h
      exfalso
      split at h
      · exact RefineOutcome.noConfusion h
      · split at h
        · exact RefineOutcome.noConfusion h
        · exact RefineOutcome.noConfusion h
    · intro h
      exact absurd h hdup

/-- Witness for C4 (amended): the guard fires on a duplicated pattern. -/
theorem c4_duplicate_guard_witness :
    ([("[x]", "c"), ("[x&D]", "z")] : List (String × String))[0]? = some ("[x]", "c") ∧
    ([("D", "D")] : List (String × String))[0]? = some ("D", "D") ∧
    regexInner "[x]" = some "x" ∧
    (refineMove (fun _ _ => []) id id [("[x]", "c"), ("[x&D]", "z")] [("D", "D")]
        ([] : List (Mol Unit)) 0 0 = some .rejectedDuplicate ↔
      proposedAtomtype "x" "D" ∈ ([("[x]", "c"), ("[x&D]", "z")].map Prod.fst)) :=
  ⟨rfl, rfl, rfl,
    c4_duplicate_guard (fun _ _ => []) id id [("[x]", "c"), ("[x&D]", "z")] [("D", "D")]
      [] 0 0 "[x]" "c" "D" "D" "x" rfl rfl rfl⟩

/-- Claim C5: with valid indices and no duplicate pattern, the refine move
inserts the new rule (parent pattern conjoined with the decorator, names
concatenated) immediately after the parent at index i, re-runs the typing
engine on exactly that proposal, and rejects before any scoring when typing
fails or when the new or the parent typename covers zero atoms; it reaches
the scorer exactly when both counts are nonzero. -/
theorem c5_refine_insert_and_guards (oracle : Oracle α) (aromatize : α → α) (expand : String → String)
    (atomtypes decorators : List (String × String)) (mols : List (Mol α)) (i j : Nat)
    (atomtype parentName decorator decoratorName inner : String)
    (hi : atomtypes[i]? = some (atomtype, parentName))
    (hj : decorators[j]? = some (decorator, decoratorName))
    (hre : regexInner atomtype = some inner)
    (hdup : proposedAtomtype inner decorator ∉ atomtypes.map Prod.fst) :
    (∀ e, type_molecules oracle aromatize expand
        (atomtypes.insertIdx (i + 1)
          (proposedAtomtype inner decorator, proposedTypename parentName decoratorName)) mols = .error e →
      refineMove oracle aromatize expand atomtypes decorators mols i j = some .rejectedTyping) ∧
    (∀ mols2, type_molecules oracle aromatize expand
        (atomtypes.insertIdx (i + 1)
          (proposedAtomtype inner decorator, proposedTypename parentName decoratorName)) mols = .ok mols2 →
      (refineMove oracle aromatize expand atomtypes decorators mols i j = some .rejectedUnused ↔
        (atom_typecounts mols2 (proposedTypename parentName decoratorName) = 0 ∨
          atom_typecounts mols2 parentName = 0)) ∧
      (refineMove oracle aromatize expand atomtypes decorators mols i j =
          some (.scored (atomtypes.insertIdx (i + 1)
            (proposedAtomtype inner decorator, proposedTypename parentName decoratorName)) mols2) ↔
        ¬ (atom_typecounts mols2 (proposedTypename parentName decoratorName) = 0 ∨
          atom_typecounts mols2 parentName = 0))) := by
  have hrm := refineMove_eq_validate oracle aromatize expand atomtypes decorators mols i j
    atomtype parentName decorator decoratorName inner hi hj hre
  constructor
  · intro e he
    rw [hrm]
    simp [refineValidate, if_neg hdup, he]
  · intro mols2 htm
    constructor
    · rw [hrm]
      simp only [refineValidate, if_neg hdup, htm, Option.some.injEq]
      by_cases hc : (atom_typecounts mols2 (proposedTypename parentName decoratorName) = 0 ∨
          atom_typecounts mols2 parentName = 0)
      · simp [hc]
      · simp [hc]
    · rw [hrm]
      simp only [refineValidate, if_neg hdup, htm, Option.some.injEq]
      by_cases hc : (atom_typecounts mols2 (proposedTypename parentName decoratorName) = 0 ∨
          atom_typecounts mols2 parentName = 0)
      · simp [hc]
      · simp [hc]

/-- Witness for C5: a two-atom molecule where the refine proposal keeps both
the parent and the new typename populated, so the move reaches the scorer
with the new rule inserted right after its parent. -/
theorem c5_refine_insert_and_guards_witness :
    ([("[x]", "c")] : List (String × String))[0]? = some ("[x]", "c") ∧
    ([("D", "D")] : List (String × String))[0]? = some ("D", "D") ∧
    regexInner "[x]" = some "x" ∧
    proposedAtomtype "x" "D" ∉ ([("[x]", "c")].map Prod.fst) ∧
    refineMove (fun p _ => if p = "[x]" then [[0, 1]] else if p = "[x&D]" then [[1]] else []) id id
        [("[x]", "c")] [("D", "D")] [(⟨(), 2, []⟩ : Mol Unit)] 0 0 =
      some (.scored [("[x]", "c"), ("[x&D]", "c D")] [⟨(), 2, ["c", "c D"]⟩]) := by
  refine ⟨rfl, rfl, rfl, by decide, ?_⟩
  have h := (c5_refine_insert_and_guards
    (fun p _ => if p = "[x]" then [[0, 1]] else if p = "[x&D]" then [[1]] else []) id id
    [("[x]", "c")] [("D", "D")] [(⟨(), 2, []⟩ : Mol Unit)] 0 0
    "[x]" "c" "D" "D" "x" rfl rfl rfl (by decide)).2
    [⟨(), 2, ["c", "c D"]⟩] rfl
  exact h.2.mpr (by decide)

end Smarty
